import Mathlib

/-!
Verification of the SPR (Swagger Proxy Runner) request-generation pipeline,
a shallow embedding of `cmd/spr/main.go`.

Go values of type `interface{}` produced by `encoding/json` and by the
value synthesizer are modelled by `GoVal`.  Go maps (`map[string]interface{}`)
are modelled as association lists; observable map behaviour (key lookup,
sorted iteration in `fmt` and `encoding/json`) is reproduced explicitly.
A Go runtime panic (failed type assertion) is modelled as `Option.none`.
-/

/-- The open-brace character, written numerically. -/
def obr : Char := Char.ofNat 123

/-- The close-brace character, written numerically. -/
def cbr : Char := Char.ofNat 125

/-- A Go `interface{}` value as produced by JSON decoding or by the
synthesizer: `int` covers Go `int`, `float` covers integral `float64`
(the only floats the program creates or that the claims exercise),
`obj` models `map[string]interface{}` as an association list. -/
inductive GoVal where
  | null
  | bool (b : Bool)
  | int (n : Int)
  | float (n : Int)
  | str (s : String)
  | arr (xs : List GoVal)
  | obj (fs : List (String × GoVal))

mutual
/-- Structural size of a `GoVal`, used only as a fuel bound. -/
def goValSize : GoVal → Nat
  | .null => 1
  | .bool _ => 1
  | .int _ => 1
  | .float _ => 1
  | .str _ => 1
  | .arr xs => 1 + goListSize xs
  | .obj fs => 1 + goFieldsSize fs

/-- Structural size of a list of `GoVal`s. -/
def goListSize : List GoVal → Nat
  | [] => 1
  | v :: rest => 1 + goValSize v + goListSize rest

/-- Structural size of an association list of `GoVal`s. -/
def goFieldsSize : List (String × GoVal) → Nat
  | [] => 1
  | (_, v) :: rest => 1 + goValSize v + goFieldsSize rest
end

/-- Go map indexing `m[k]`: first binding wins (our documents have unique keys). -/
def lookupGo : List (String × GoVal) → String → Option GoVal
  | [], _ => none
  | (k, v) :: rest, key => if k = key then some v else lookupGo rest key

/-- Go type assertion `v.(map[string]interface{})` with the comma-ok form. -/
def asObj : GoVal → Option (List (String × GoVal))
  | .obj fs => some fs
  | _ => none

/-- Go type assertion `v.(string)` with the comma-ok form. -/
def asStr : GoVal → Option String
  | .str s => some s
  | _ => none

/-- Lookup in a `map[string]string` (the override table). -/
def lookupStr : List (String × String) → String → Option String
  | [], _ => none
  | (k, v) :: rest, key => if k = key then some v else lookupStr rest key

/-- Go map assignment `m[k] = v` on an association list: overwrite in place
or append. -/
def upsert (l : List (String × GoVal)) (k : String) (v : GoVal) :
    List (String × GoVal) :=
  match l with
  | [] => [(k, v)]
  | (k0, v0) :: rest =>
    if k0 = k then (k, v) :: rest else (k0, v0) :: upsert rest k v

/-- `schema["type"].(string)` with comma-ok: empty string when missing or
not a string. -/
def strField (fs : List (String × GoVal)) (k : String) : String :=
  ((lookupGo fs k).bind asStr).getD ""

/-- Static UUID for all requests (source line 45). -/
def staticUUID : String := "11111111-1111-1111-1111-111111111111"

/-- Integer fuzzing values (source lines 48-51). -/
def intFuzzValues : List Int :=
  [1, 10, 100, 1000, 10000, 100000, 1000000, 10000000,
   2, 20, 200, 2000, 20000, 200000, 2000000, 20000000,
   5, 50, 500, 5000, 50000, 500000, 5000000, 50000000,
   9, 90, 900, 9000, 90000, 900000, 9000000, 90000000]

mutual
/-- Fuel-indexed body of `getDummyValue`.  The fuel only bounds recursion
depth (it strictly exceeds the term size at every call, so it never runs
out); `none` models a Go panic from a failed type assertion. -/
def goDummy : Nat → List (String × GoVal) → Option GoVal → Bool → Int →
    String → List (String × String) → Option GoVal
  | 0, _, _, _, _, _, _ => none
  | fuel + 1, schema, exampl, intFuzz, fuzzValue, paramName, overrides =>
    match lookupStr overrides paramName, intFuzz with
    | some ov, false => some (.str ov)
    | _, _ =>
      match exampl with
      | some e => some e
      | none =>
        let schemaType := strField schema "type"
        let schemaFormat := strField schema "format"
        if schemaFormat = "uuid" then some (.str staticUUID)
        else
          match (if schemaType = "" then (lookupGo schema "properties").bind asObj
                 else none) with
          | some props =>
            (goDummyProps fuel props intFuzz fuzzValue overrides).map GoVal.obj
          | none =>
            if schemaType = "string" then some (.str "test_string")
            else if schemaType = "integer" then
              if intFuzz then
                match lookupStr overrides paramName with
                | some ov => some (.str ov)
                | none => some (.int fuzzValue)
              else some (.int 1000)
            else if schemaType = "number" then some (.float 1)
            else if schemaType = "boolean" then some (.bool true)
            else if schemaType = "array" then
              match (lookupGo schema "items").bind asObj with
              | some items =>
                (goDummy fuel items none intFuzz fuzzValue paramName
                  overrides).map (fun v => .arr [v])
              | none => none
            else if schemaType = "object" then
              match (lookupGo schema "properties").bind asObj with
              | some props =>
                (goDummyProps fuel props intFuzz fuzzValue overrides).map GoVal.obj
              | none => some (.obj [])
            else
              match (lookupGo schema "properties").bind asObj with
              | some props =>
                (goDummyProps fuel props intFuzz fuzzValue overrides).map GoVal.obj
              | none => some (.str "test_value")

/-- Recursion over a `properties` map: each property value must itself be
an object (`prop.(map[string]interface{})` panics otherwise). -/
def goDummyProps : Nat → List (String × GoVal) → Bool → Int →
    List (String × String) → Option (List (String × GoVal))
  | 0, _, _, _, _ => none
  | _ + 1, [], _, _, _ => some []
  | fuel + 1, (k, v) :: rest, intFuzz, fuzzValue, overrides =>
    match asObj v with
    | none => none
    | some pf =>
      (goDummy fuel pf none intFuzz fuzzValue k overrides).bind fun dv =>
        (goDummyProps fuel rest intFuzz fuzzValue overrides).map
          (fun r => (k, dv) :: r)
end

/-- `getDummyValue` (source lines 53-122): synthesize a representative
value for a schema node.  The fuel `goFieldsSize schema + 1` strictly
dominates the recursion depth, so the fuel case is unreachable. -/
def getDummyValue (schema : List (String × GoVal)) (exampl : Option GoVal)
    (intFuzz : Bool) (fuzzValue : Int) (paramName : String)
    (overrides : List (String × String)) : Option GoVal :=
  goDummy (goFieldsSize schema + 1) schema exampl intFuzz fuzzValue paramName
    overrides

/-- Insertion step for sorting an association list by key (Go's `fmt` and
`encoding/json` render maps with keys in sorted order). -/
def sortInsertField (p : String × GoVal) :
    List (String × GoVal) → List (String × GoVal)
  | [] => [p]
  | q :: rest => if p.1 ≤ q.1 then p :: q :: rest else q :: sortInsertField p rest

/-- Sort an association list by key. -/
def sortByKey (l : List (String × GoVal)) : List (String × GoVal) :=
  l.foldr sortInsertField []

mutual
/-- Fuel-indexed body of `fmt.Sprint` on an `interface{}` value.
Maps print as `map[k1:v1 k2:v2]` with sorted keys, slices as `[v1 v2]`. -/
def sprintGo : Nat → GoVal → String
  | 0, _ => ""
  | _ + 1, .null => "<nil>"
  | _ + 1, .bool true => "true"
  | _ + 1, .bool false => "false"
  | _ + 1, .int n => toString n
  | _ + 1, .float n => toString n
  | _ + 1, .str s => s
  | fuel + 1, .arr xs => "[" ++ sprintList fuel xs ++ "]"
  | fuel + 1, .obj fs => "map[" ++ sprintFields fuel (sortByKey fs) ++ "]"

/-- Space-separated rendering of slice elements. -/
def sprintList : Nat → List GoVal → String
  | 0, _ => ""
  | _ + 1, [] => ""
  | fuel + 1, [v] => sprintGo fuel v
  | fuel + 1, v :: rest => sprintGo fuel v ++ " " ++ sprintList fuel rest

/-- Space-separated rendering of `k:v` map entries. -/
def sprintFields : Nat → List (String × GoVal) → String
  | 0, _ => ""
  | _ + 1, [] => ""
  | fuel + 1, [(k, v)] => k ++ ":" ++ sprintGo fuel v
  | fuel + 1, (k, v) :: rest =>
    k ++ ":" ++ sprintGo fuel v ++ " " ++ sprintFields fuel rest
end

/-- `fmt.Sprint(value)` for the values the program manipulates. -/
def goSprint (v : GoVal) : String := sprintGo (goValSize v + 1) v

/-- Lowercase hex digit, for `encoding/json`'s `\u00xx` escapes. -/
def jsonHexDigit (n : Nat) : Char :=
  match n with
  | 0 => '0' | 1 => '1' | 2 => '2' | 3 => '3' | 4 => '4'
  | 5 => '5' | 6 => '6' | 7 => '7' | 8 => '8' | 9 => '9'
  | 10 => 'a' | 11 => 'b' | 12 => 'c' | 13 => 'd' | 14 => 'e' | _ => 'f'

/-- `encoding/json` string escaping for one character (HTML escaping on,
as in `json.Marshal`'s default encoder). -/
def escapeJSONChar (c : Char) : List Char :=
  if c = '"' then ['\\', '"']
  else if c = '\\' then ['\\', '\\']
  else if c = '\n' then ['\\', 'n']
  else if c = '\r' then ['\\', 'r']
  else if c = '\t' then ['\\', 't']
  else if c = '<' ∨ c = '>' ∨ c = '&' ∨ c.toNat < 32 then
    ['\\', 'u', '0', '0', jsonHexDigit (c.toNat / 16 % 16),
     jsonHexDigit (c.toNat % 16)]
  else [c]

/-- A JSON string literal: quotes around the escaped characters. -/
def quoteJSON (s : String) : List Char :=
  '"' :: s.toList.foldr (fun c acc => escapeJSONChar c ++ acc) ['"']

mutual
/-- Fuel-indexed body of `json.Marshal` on an `interface{}` value.
Map keys are emitted in sorted order, as `encoding/json` does. -/
def marshalGo : Nat → GoVal → List Char
  | 0, _ => []
  | _ + 1, .null => "null".toList
  | _ + 1, .bool true => "true".toList
  | _ + 1, .bool false => "false".toList
  | _ + 1, .int n => (toString n).toList
  | _ + 1, .float n => (toString n).toList
  | _ + 1, .str s => quoteJSON s
  | fuel + 1, .arr xs => '[' :: (marshalList fuel xs ++ [']'])
  | fuel + 1, .obj fs => obr :: (marshalFields fuel (sortByKey fs) ++ [cbr])

/-- Comma-separated marshalling of array elements. -/
def marshalList : Nat → List GoVal → List Char
  | 0, _ => []
  | _ + 1, [] => []
  | fuel + 1, [v] => marshalGo fuel v
  | fuel + 1, v :: rest => marshalGo fuel v ++ ',' :: marshalList fuel rest

/-- Comma-separated marshalling of `"k":v` object members. -/
def marshalFields : Nat → List (String × GoVal) → List Char
  | 0, _ => []
  | _ + 1, [] => []
  | fuel + 1, [(k, v)] => quoteJSON k ++ ':' :: marshalGo fuel v
  | fuel + 1, (k, v) :: rest =>
    quoteJSON k ++ ':' :: marshalGo fuel v ++ ',' :: marshalFields fuel rest
end

/-- `json.Marshal(value)` (the source ignores its error, which our model
never produces). -/
def goMarshal (v : GoVal) : List Char := marshalGo (goValSize v + 1) v

/-- Uppercase hex digit, as `net/url` uses in percent-escapes. -/
def hexDigitU (n : Nat) : Char :=
  match n with
  | 0 => '0' | 1 => '1' | 2 => '2' | 3 => '3' | 4 => '4'
  | 5 => '5' | 6 => '6' | 7 => '7' | 8 => '8' | 9 => '9'
  | 10 => 'A' | 11 => 'B' | 12 => 'C' | 13 => 'D' | 14 => 'E' | _ => 'F'

/-- The characters `net/url` leaves unescaped in a query component:
alphanumerics and `-._~`. -/
def isUnreservedQuery (c : Char) : Bool :=
  (97 ≤ c.toNat && c.toNat ≤ 122) || (65 ≤ c.toNat && c.toNat ≤ 90) ||
  (48 ≤ c.toNat && c.toNat ≤ 57) ||
  c = '-' || c = '_' || c = '.' || c = '~'

/-- `url.QueryEscape` on one character: space becomes `+`, other reserved
characters become `%XX` (per byte in Go; per code point here, which agrees
on the ASCII data the program and claims exercise). -/
def queryEscapeChar (c : Char) : List Char :=
  if isUnreservedQuery c then [c]
  else if c = ' ' then ['+']
  else ['%', hexDigitU (c.toNat / 16 % 16), hexDigitU (c.toNat % 16)]

/-- `url.QueryEscape` on a string. -/
def queryEscape (s : String) : List Char :=
  s.toList.foldr (fun c acc => queryEscapeChar c ++ acc) []

/-- Insertion step for `sort.Strings`. -/
def sortInsertStr (s : String) : List String → List String
  | [] => [s]
  | t :: rest => if s ≤ t then s :: t :: rest else t :: sortInsertStr s rest

/-- `sort.Strings` on a key list. -/
def sortStrings (l : List String) : List String := l.foldr sortInsertStr []

/-- Collapse consecutive duplicates of a sorted key list (a Go map has
each key once; our flat pair list may repeat keys). -/
def dedupSorted : List String → List String
  | [] => []
  | [a] => [a]
  | a :: b :: rest =>
    if a = b then dedupSorted (b :: rest) else a :: dedupSorted (b :: rest)

/-- The values added under key `k`, in insertion order, as in
`url.Values` (a `map[string][]string` whose slices grow by `Add`). -/
def valuesOf (q : List (String × String)) (k : String) : List String :=
  (q.filter (fun p => p.1 == k)).map (·.2)

/-- One `key=value` component of an encoded query. -/
def encodePair (k v : String) : List Char :=
  queryEscape k ++ '=' :: queryEscape v

/-- Join components with `&`. -/
def joinAmp : List (List Char) → List Char
  | [] => []
  | [x] => x
  | x :: rest => x ++ '&' :: joinAmp rest

/-- `url.Values.Encode`: keys in sorted order, each key's values in
insertion order, components joined by `&`. -/
def encodeQuery (q : List (String × String)) : List Char :=
  joinAmp ((dedupSorted (sortStrings (q.map (·.1)))).map
    (fun k => joinAmp ((valuesOf q k).map (encodePair k))))

/-- Fuel-indexed body of `strings.Replace(s, pat, rep, -1)`: replace all
non-overlapping occurrences, leftmost first.  Fuel `s.length + 1` always
suffices since every step consumes at least one character of `s`. -/
def replGo : Nat → List Char → List Char → List Char → List Char
  | 0, s, _, _ => s
  | _ + 1, [], _, _ => []
  | fuel + 1, c :: rest, pat, rep =>
    if pat ≠ [] ∧ pat <+: (c :: rest) then
      rep ++ replGo fuel (List.drop pat.length (c :: rest)) pat rep
    else c :: replGo fuel rest pat rep

/-- `strings.Replace(s, pat, rep, -1)` (the program never passes an empty
pattern; our model returns `s` unchanged for one). -/
def goReplace (s pat rep : List Char) : List Char :=
  replGo (s.length + 1) s pat rep

/-- The placeholder pattern `"{" + name + "}"` built at source line 356. -/
def mkPat (n : List Char) : List Char := obr :: (n ++ [cbr])

/-- `type Parameter` (source lines 18-24); `paramIn` is the `in` field. -/
structure Parameter where
  name : String
  paramIn : String
  required : Bool
  schema : List (String × GoVal)
  exampl : Option GoVal

/-- `type Operation` (source lines 26-29); `none` is a nil map. -/
structure Operation where
  parameters : List Parameter
  requestBody : Option (List (String × GoVal))

/-- `type PathItem` (source lines 31-38). -/
structure PathItem where
  get : Option Operation
  post : Option Operation
  put : Option Operation
  delete : Option Operation
  patch : Option Operation
  parameters : List Parameter

/-- `type OpenAPI` (source lines 40-42).  Go iterates `Paths` (a map) in
unspecified order; the model fixes the list order, which does not affect
the counting, membership and per-descriptor properties proved below. -/
structure OpenAPI where
  paths : List (List Char × PathItem)

/-- `normalizeHost` (source lines 124-126): strip trailing slashes. -/
def normalizeHost (host : List Char) : List Char :=
  (host.reverse.dropWhile (fun c => c == '/')).reverse

/-- `hasIntegerParams` (source lines 128-152).  `none` models the panic of
the unchecked assertion `jsonContent.(map[string]interface{})` at line 142;
all other malformed shapes fall through comma-ok checks to `false`. -/
def hasIntegerParams (operation : Operation) (pathParams : List Parameter) :
    Option Bool :=
  let allParams := pathParams ++ operation.parameters
  if allParams.any (fun p => ((lookupGo p.schema "type").bind asStr) == some "integer")
  then some true
  else
    match operation.requestBody with
    | none => some false
    | some rbf =>
      match (lookupGo rbf "content").bind asObj with
      | none => some false
      | some content =>
        match lookupGo content "application/json" with
        | none => some false
        | some jsonContent =>
          match asObj jsonContent with
          | none => none
          | some jcm =>
            match (lookupGo jcm "schema").bind asObj with
            | none => some false
            | some schema =>
              some (((lookupGo schema "type").bind asStr) == some "integer")

/-- The methods that "typically have a body" (source line 351). -/
def bodyMethod (method : String) : Bool :=
  method == "POST" || method == "PUT" || method == "PATCH"

/-- The mutable state of the per-descriptor parameter loop
(source lines 343-345). -/
structure ProcState where
  url : List Char
  query : List (String × String)
  bodyParams : List (String × GoVal)

/-- Routing of one synthesized parameter value (source lines 350-360):
to the body mapping (query parameter of a body-carrying method), the URL
template, or the query string; any other location (`header`, `cookie`,
...) falls through the `switch` and is dropped. -/
def procStep (method : String) (p : Parameter) (value : GoVal)
    (st : ProcState) : ProcState :=
  if bodyMethod method && p.paramIn == "query" then
    { st with bodyParams := upsert st.bodyParams p.name value }
  else if p.paramIn == "path" then
    { st with url := goReplace st.url (mkPat p.name.toList)
                  (goSprint value).toList }
  else if p.paramIn == "query" then
    { st with query := st.query ++ [(p.name, goSprint value)] }
  else st

/-- The parameter loop of source lines 347-361: synthesize each parameter
value and route it with `procStep`. -/
def procParams (method : String) (intFuzz : Bool) (fuzzValue : Int)
    (overrides : List (String × String)) :
    List Parameter → ProcState → Option ProcState
  | [], st => some st
  | p :: rest, st =>
    (getDummyValue p.schema p.exampl intFuzz fuzzValue p.name overrides).bind
      fun value =>
        procParams method intFuzz fuzzValue overrides rest
          (procStep method p value st)

/-- Request body creation (source lines 367-383).  The outer `Option` is
the panic of the unchecked assertions at lines 370 and 372; the inner
`Option (List Char)` is the `body []byte` slice, `none` being Go `nil`
(note: a declared `requestBody` without an `application/json` content key
leaves the body nil even for POST/PUT/PATCH). -/
def bodyFor (method : String) (intFuzz : Bool) (fuzzValue : Int)
    (overrides : List (String × String))
    (requestBody : Option (List (String × GoVal)))
    (bodyParams : List (String × GoVal)) : Option (Option (List Char)) :=
  match requestBody with
  | some rbf =>
    match (lookupGo rbf "content").bind asObj with
    | none => none
    | some content =>
      match lookupGo content "application/json" with
      | none => some none
      | some jsonContent =>
        match asObj jsonContent with
        | none => none
        | some jcm =>
          match (lookupGo jcm "schema").bind asObj with
          | none => none
          | some schema =>
            (getDummyValue schema none intFuzz fuzzValue "" overrides).map
              (fun bodyData => some (goMarshal bodyData))
  | none =>
    if bodyMethod method then
      if bodyParams.isEmpty then some (some [obr, cbr])
      else some (some (goMarshal (.obj bodyParams)))
    else some none

/-- The struct sent over `requestChan` (source lines 262-267, 386-396). -/
structure RequestDescriptor where
  method : String
  url : List Char
  body : Option (List Char)
  headerMap : List (String × String)

/-- One iteration of the fuzz-value loop (source lines 338-397): build the
fully-resolved descriptor for one (path, method, fuzz value). -/
def buildOneDescriptor (normalizedHost : List Char)
    (headerMap : List (String × String)) (overrides : List (String × String))
    (intFuzz : Bool) (method : String) (path : List Char)
    (allParams : List Parameter)
    (requestBody : Option (List (String × GoVal))) (fuzzValue : Int) :
    Option RequestDescriptor :=
  (procParams method intFuzz fuzzValue overrides allParams
      ⟨normalizedHost ++ path, [], []⟩).bind fun st =>
    let requestURL :=
      if st.query.isEmpty then st.url else st.url ++ '?' :: encodeQuery st.query
    (bodyFor method intFuzz fuzzValue overrides requestBody st.bodyParams).map
      fun body => ⟨method, requestURL, body, headerMap⟩

/-- `mapM` over `Option`, written explicitly for easy induction. -/
def mapMO (f : α → Option β) : List α → Option (List β)
  | [] => some []
  | a :: rest => (f a).bind fun b => (mapMO f rest).map (fun bs => b :: bs)

/-- Monadic concat-map over `Option`. -/
def concatMapMO (f : α → Option (List β)) : List α → Option (List β)
  | [] => some []
  | a :: rest => (f a).bind fun bs => (concatMapMO f rest).map (fun cs => bs ++ cs)

/-- The `operations` map literal (source lines 233-239 and 319-325);
a Go map iterates in unspecified order, the model fixes this one. -/
def opsOf (item : PathItem) : List (String × Option Operation) :=
  [("GET", item.get), ("POST", item.post), ("PUT", item.put),
   ("DELETE", item.delete), ("PATCH", item.patch)]

/-- The fuzz-value list selected at source lines 333-336. -/
def fuzzValuesFor (intFuzz hasIntegers : Bool) : List Int :=
  if intFuzz && hasIntegers then intFuzzValues else [1000]

/-- All descriptors produced for one allowed (path, method) operation
(source lines 332-397). -/
def buildForOp (normalizedHost : List Char)
    (headerMap overrides : List (String × String)) (intFuzz : Bool)
    (method : String) (path : List Char) (pathParams : List Parameter)
    (operation : Operation) : Option (List RequestDescriptor) :=
  (hasIntegerParams operation pathParams).bind fun hasIntegers =>
    mapMO
      (fun fuzzValue =>
        buildOneDescriptor normalizedHost headerMap overrides intFuzz method
          path (pathParams ++ operation.parameters) operation.requestBody
          fuzzValue)
      (fuzzValuesFor intFuzz hasIntegers)

/-- All descriptors produced for one path entry: skip undefined operations
and methods outside the allow-set (source lines 327-330). -/
def buildForPath (normalizedHost : List Char)
    (headerMap overrides : List (String × String)) (intFuzz : Bool)
    (methods : List String) (path : List Char) (item : PathItem) :
    Option (List RequestDescriptor) :=
  concatMapMO
    (fun mo =>
      match mo.2 with
      | none => some []
      | some operation =>
        if methods.contains mo.1 then
          buildForOp normalizedHost headerMap overrides intFuzz mo.1 path
            item.parameters operation
        else some [])
    (opsOf item)

/-- The full production loop (source lines 317-399): every descriptor sent
to the worker channel, in order.  `none` models a run that panics. -/
def buildDescriptors (api : OpenAPI) (host : List Char)
    (methods : List String) (intFuzz : Bool)
    (headerMap overrides : List (String × String)) :
    Option (List RequestDescriptor) :=
  concatMapMO
    (fun pi =>
      buildForPath (normalizeHost host) headerMap overrides intFuzz methods
        pi.1 pi.2)
    api.paths

/-- One operation's contribution to `totalRequests` (source lines 246-251). -/
def countForOp (intFuzz : Bool) (pathParams : List Parameter)
    (operation : Operation) : Option Nat :=
  (hasIntegerParams operation pathParams).map fun hasIntegers =>
    if intFuzz && hasIntegers then intFuzzValues.length else 1

/-- One path entry's contribution to `totalRequests`. -/
def countForPath (intFuzz : Bool) (methods : List String) (item : PathItem) :
    Option Nat :=
  (mapMO
    (fun mo =>
      match mo.2 with
      | none => some 0
      | some operation =>
        if methods.contains mo.1 then countForOp intFuzz item.parameters operation
        else some 0)
    (opsOf item)).map List.sum

/-- The pre-dispatch request count (source lines 230-253). -/
def countRequests (api : OpenAPI) (methods : List String) (intFuzz : Bool) :
    Option Nat :=
  (mapMO (fun pi => countForPath intFuzz methods pi.2) api.paths).map List.sum

/-- The spec's "folded query-declared parameter mapping": the mapping of
query-located parameter names to synthesized values, later declarations
overwriting earlier ones.  Stated from the spec's words, independently of
`procParams`, for the body-equality claim. -/
def foldedQueryParams (intFuzz : Bool) (fuzzValue : Int)
    (overrides : List (String × String)) :
    List Parameter → List (String × GoVal) → Option (List (String × GoVal))
  | [], acc => some acc
  | p :: rest, acc =>
    if p.paramIn == "query" then
      (getDummyValue p.schema p.exampl intFuzz fuzzValue p.name overrides).bind
        fun v => foldedQueryParams intFuzz fuzzValue overrides rest
          (upsert acc p.name v)
    else foldedQueryParams intFuzz fuzzValue overrides rest acc

/-- One-step unfolding of `goDummy` on positive fuel (the automatically
generated equations are too large for the elaborator, so it is stated by
hand; `rfl` certifies it is literally the definition). -/
theorem goDummy_succ (fuel : Nat) (schema : List (String × GoVal))
    (exampl : Option GoVal) (intFuzz : Bool) (fuzzValue : Int)
    (paramName : String) (overrides : List (String × String)) :
    goDummy (fuel + 1) schema exampl intFuzz fuzzValue paramName overrides =
      match lookupStr overrides paramName, intFuzz with
      | some ov, false => some (.str ov)
      | _, _ =>
        match exampl with
        | some e => some e
        | none =>
          let schemaType := strField schema "type"
          let schemaFormat := strField schema "format"
          if schemaFormat = "uuid" then some (.str staticUUID)
          else
            match (if schemaType = "" then (lookupGo schema "properties").bind asObj
                   else none) with
            | some props =>
              (goDummyProps fuel props intFuzz fuzzValue overrides).map GoVal.obj
            | none =>
              if schemaType = "string" then some (.str "test_string")
              else if schemaType = "integer" then
                if intFuzz then
                  match lookupStr overrides paramName with
                  | some ov => some (.str ov)
                  | none => some (.int fuzzValue)
                else some (.int 1000)
              else if schemaType = "number" then some (.float 1)
              else if schemaType = "boolean" then some (.bool true)
              else if schemaType = "array" then
                match (lookupGo schema "items").bind asObj with
                | some items =>
                  (goDummy fuel items none intFuzz fuzzValue paramName
                    overrides).map (fun v => .arr [v])
                | none => none
              else if schemaType = "object" then
                match (lookupGo schema "properties").bind asObj with
                | some props =>
                  (goDummyProps fuel props intFuzz fuzzValue overrides).map GoVal.obj
                | none => some (.obj [])
              else
                match (lookupGo schema "properties").bind asObj with
                | some props =>
                  (goDummyProps fuel props intFuzz fuzzValue overrides).map GoVal.obj
                | none => some (.str "test_value") := rfl

/-- Claim C1 (counterexample to the original statement): for the integer
schema node with an override present and fuzzing disabled, synthesis
returns the override string, not the fixed sentinel integer 1000 that the
claim requires for every fuzzing-disabled call. -/
theorem claim_c1_counterexample :
    getDummyValue [("type", GoVal.str "integer")] none false 1000 "id"
        [("id", "x")] = some (.str "x") ∧
    some (GoVal.str "x") ≠ some (GoVal.int 1000) :=
  ⟨rfl, by simp⟩

/-- Claim C1 (amended): for every schema node whose type is "integer",
with no example present and format not "uuid": if fuzzing is enabled and
an override exists for the parameter name, synthesize returns that
override (for every fuzz iteration); if fuzzing is enabled and no override
exists, it returns exactly the currently selected fuzz value; if fuzzing
is disabled and no override exists for the parameter name, it returns the
fixed sentinel integer 1000. -/
theorem claim_c1 (fs : List (String × GoVal)) (ov : List (String × String))
    (name : String) (fv : Int)
    (htype : strField fs "type" = "integer")
    (hfmt : strField fs "format" ≠ "uuid") :
    (∀ o, lookupStr ov name = some o →
      getDummyValue fs none true fv name ov = some (.str o)) ∧
    (lookupStr ov name = none →
      getDummyValue fs none true fv name ov = some (.int fv)) ∧
    (lookupStr ov name = none →
      getDummyValue fs none false fv name ov = some (.int 1000)) := by
  refine ⟨fun o ho => ?_, fun hno => ?_, fun hno => ?_⟩
  · unfold getDummyValue
    rw [goDummy_succ]
    simp only [ho, htype, hfmt, if_neg hfmt]
    simp [htype]
  · unfold getDummyValue
    rw [goDummy_succ]
    simp only [hno, htype, hfmt, if_neg hfmt]
    simp [htype]
  · unfold getDummyValue
    rw [goDummy_succ]
    simp only [hno, htype, hfmt, if_neg hfmt]
    simp [htype]

/-- Witness for C1 at a concrete integer schema: both hypotheses hold and
the three amended conclusions follow by applying `claim_c1`. -/
theorem claim_c1_witness :
    strField [("type", GoVal.str "integer")] "type" = "integer" ∧
    strField [("type", GoVal.str "integer")] "format" ≠ "uuid" ∧
    ((∀ o, lookupStr [("id", "x")] "id" = some o →
        getDummyValue [("type", GoVal.str "integer")] none true 7 "id"
          [("id", "x")] = some (.str o)) ∧
     (lookupStr [("id", "x")] "id" = none →
        getDummyValue [("type", GoVal.str "integer")] none true 7 "id"
          [("id", "x")] = some (.int 7)) ∧
     (lookupStr [("id", "x")] "id" = none →
        getDummyValue [("type", GoVal.str "integer")] none false 7 "id"
          [("id", "x")] = some (.int 1000))) :=
  ⟨rfl, by decide, claim_c1 _ _ _ _ rfl (by decide)⟩

/-- Claim C7: the code panics (an unhandled crash, modelled as `none`)
instead of reporting a structured fatal error, both for an "array" schema
lacking `items` (unchecked assertion at source line 99) and for a declared
requestBody lacking the expected `content` structure (unchecked assertion
at source line 370).  No default value is substituted. -/
theorem claim_c7_malformed_schema_panics :
    getDummyValue [("type", GoVal.str "array")] none false 1000 "a" [] = none ∧
    bodyFor "POST" false 1000 [] (some []) [] = none :=
  ⟨rfl, rfl⟩

/-- Claim C8: when fuzzing is disabled and an override exists for the
parameter name, synthesize returns the override literal, over the example,
the uuid rule and every type rule; when no override applies (absent, or
fuzzing enabled so the top-level override rule is skipped) and an example
is present, synthesize returns the example verbatim. -/
theorem claim_c8 (fs : List (String × GoVal)) (ov : List (String × String))
    (name : String) :
    (∀ exampl fv o, lookupStr ov name = some o →
      getDummyValue fs exampl false fv name ov = some (.str o)) ∧
    (∀ e fuzz fv, (lookupStr ov name = none ∨ fuzz = true) →
      getDummyValue fs (some e) fuzz fv name ov = some e) := by
  constructor
  · intro exampl fv o ho
    unfold getDummyValue
    rw [goDummy_succ, ho]
  · intro e fuzz fv h
    unfold getDummyValue
    rw [goDummy_succ]
    rcases h with hno | htrue
    · rw [hno]
    · subst htrue
      rcases hl : lookupStr ov name with _ | o <;> simp

/-- Witness for C8: the override wins over a uuid-format schema with an
example when fuzzing is off; the example is returned verbatim when
fuzzing is on. -/
theorem claim_c8_witness :
    lookupStr [("id", "x")] "id" = some "x" ∧
    getDummyValue [("format", GoVal.str "uuid")] (some (.bool true)) false 5
        "id" [("id", "x")] = some (.str "x") ∧
    getDummyValue [("format", GoVal.str "uuid")] (some (.bool true)) true 5
        "id" [("id", "x")] = some (.bool true) :=
  ⟨rfl,
   (claim_c8 [("format", GoVal.str "uuid")] [("id", "x")] "id").1
     (some (.bool true)) 5 "x" rfl,
   (claim_c8 [("format", GoVal.str "uuid")] [("id", "x")] "id").2
     (.bool true) true 5 (Or.inr rfl)⟩

/-- Claim C9 (counterexample to the original statement): a node whose type
is the unknown string "weird" but which carries a `properties` object is
synthesized as an object (source lines 110-119), not as the sentinel
fallback string the claim requires for every non-listed type. -/
theorem claim_c9_counterexample :
    getDummyValue
        [("type", GoVal.str "weird"),
         ("properties", GoVal.obj [("a", GoVal.obj [("type", GoVal.str "string")])])]
        none false 1000 "p" [] =
      some (GoVal.obj [("a", GoVal.str "test_string")]) ∧
    some (GoVal.obj [("a", GoVal.str "test_string")]) ≠ some (GoVal.str "test_value") :=
  ⟨rfl, by simp⟩

/-- Claim C9 (amended): for every schema node with no override, no
example, non-uuid format, whose type is none of
string/integer/number/boolean/array/object (including a missing type),
and whose `properties` member is absent or not an object, synthesize
returns the fixed sentinel fallback string "test_value". -/
theorem claim_c9 (fs : List (String × GoVal)) (ov : List (String × String))
    (name : String) (fuzz : Bool) (fv : Int)
    (hov : lookupStr ov name = none)
    (hfmt : strField fs "format" ≠ "uuid")
    (h1 : strField fs "type" ≠ "string")
    (h2 : strField fs "type" ≠ "integer")
    (h3 : strField fs "type" ≠ "number")
    (h4 : strField fs "type" ≠ "boolean")
    (h5 : strField fs "type" ≠ "array")
    (h6 : strField fs "type" ≠ "object")
    (hprops : (lookupGo fs "properties").bind asObj = none) :
    getDummyValue fs none fuzz fv name ov = some (.str "test_value") := by
  unfold getDummyValue
  rw [goDummy_succ, hov]
  simp only [if_neg hfmt, hprops]
  by_cases hst : strField fs "type" = "" <;>
    simp [hst, hprops, h1, h2, h3, h4, h5, h6]

/-- Witness for C9 at a concrete unknown-type schema without properties. -/
theorem claim_c9_witness :
    lookupStr [] "p" = none ∧
    strField [("type", GoVal.str "weird")] "type" ≠ "object" ∧
    (lookupGo [("type", GoVal.str "weird")] "properties").bind asObj = none ∧
    getDummyValue [("type", GoVal.str "weird")] none false 3 "p" [] =
      some (.str "test_value") :=
  ⟨rfl, by decide, rfl,
   claim_c9 [("type", GoVal.str "weird")] [] "p" false 3 rfl (by decide)
     (by decide) (by decide) (by decide) (by decide) (by decide) (by decide)
     rfl⟩

/-- `true` when a character list contains no brace characters. -/
def braceFree (s : List Char) : Bool :=
  s.all (fun c => !(c == obr) && !(c == cbr))

/-- `true` when the string still contains a `\x7b...\x7d` placeholder: an
open brace with a close brace somewhere after it. -/
def hasPlaceholder : List Char → Bool
  | [] => false
  | c :: rest => if c = obr then rest.contains cbr else hasPlaceholder rest

/-- A path template seen as alternating literal text and `\x7bname\x7d`
placeholders; used to state which URLs are fully resolvable. -/
inductive PathToken where
  | lit (s : List Char)
  | ph (n : List Char)

/-- Render one token back to the raw template text. -/
def renderTok : PathToken → List Char
  | .lit s => s
  | .ph n => mkPat n

/-- Render a template back to the raw template text. -/
def renderT : List PathToken → List Char
  | [] => []
  | t :: ts => renderTok t ++ renderT ts

/-- A well-formed token carries no brace characters of its own. -/
def tokOK : PathToken → Bool
  | .lit s => braceFree s
  | .ph n => braceFree n

/-- A well-formed template: every token is well-formed. -/
def wfT (ts : List PathToken) : Bool := ts.all tokOK

/-- Substitute value `v` for every placeholder named `n`. -/
def substTok (n v : List Char) : PathToken → PathToken
  | .lit s => .lit s
  | .ph m => if m = n then .lit v else .ph m

/-- Substitution over a whole template. -/
def substT (n v : List Char) (ts : List PathToken) : List PathToken :=
  ts.map (substTok n v)

/-- A successful `mapMO` preserves length. -/
theorem mapMO_length {α β : Type _} (f : α → Option β) :
    ∀ {l : List α} {ys : List β}, mapMO f l = some ys → ys.length = l.length := by
  intro l
  induction l with
  | nil => intro ys h; simp [mapMO] at h; simp [h]
  | cons a rest ih =>
    intro ys h
    simp only [mapMO] at h
    rcases Option.bind_eq_some.mp h with ⟨b, hb, hrest⟩
    rcases Option.map_eq_some'.mp hrest with ⟨bs, hbs, hys⟩
    subst hys
    simp [ih hbs]

/-- Lifting a pointwise build-count correspondence through one
concat-map/count loop pair. -/
theorem concatMapMO_count {α β : Type _} (f : α → Option (List β))
    (g : α → Option Nat) :
    ∀ (L : List α), (∀ a ∈ L, ∀ bs, f a = some bs → g a = some bs.length) →
      ∀ {ds : List β}, concatMapMO f L = some ds →
        (mapMO g L).map List.sum = some ds.length := by
  intro L
  induction L with
  | nil => intro _ ds h; simp [concatMapMO] at h; simp [mapMO, h]
  | cons a rest ih =>
    intro hpt ds h
    simp only [concatMapMO] at h
    rcases Option.bind_eq_some.mp h with ⟨bs, hbs, hrest⟩
    rcases Option.map_eq_some'.mp hrest with ⟨cs, hcs, hds⟩
    subst hds
    have hga := hpt a (by simp) bs hbs
    have hih := ih (fun x hx => hpt x (by simp [hx])) hcs
    rcases Option.map_eq_some'.mp hih with ⟨ns, hns, hsum⟩
    simp only [mapMO, hga, hns, Option.some_bind, Option.map_some']
    simp [List.sum_cons, hsum]

/-- One operation: the counting loop agrees with the number of
descriptors the building loop emits. -/
theorem buildForOp_count (normalizedHost : List Char)
    (headerMap overrides : List (String × String)) (intFuzz : Bool)
    (method : String) (path : List Char) (pathParams : List Parameter)
    (operation : Operation) {ds : List RequestDescriptor}
    (hb : buildForOp normalizedHost headerMap overrides intFuzz method path
        pathParams operation = some ds) :
    countForOp intFuzz pathParams operation = some ds.length := by
  unfold buildForOp at hb
  rcases Option.bind_eq_some.mp hb with ⟨hi, hhi, hmap⟩
  have hlen := mapMO_length _ hmap
  unfold countForOp
  rw [hhi, Option.map_some']
  unfold fuzzValuesFor at hlen
  by_cases hcase : intFuzz && hi <;> simp [hcase] at hlen ⊢ <;> simp [hlen]

/-- One path entry: the counting loop agrees with the building loop. -/
theorem buildForPath_count (normalizedHost : List Char)
    (headerMap overrides : List (String × String)) (intFuzz : Bool)
    (methods : List String) (path : List Char) (item : PathItem)
    {ds : List RequestDescriptor}
    (hb : buildForPath normalizedHost headerMap overrides intFuzz methods path
        item = some ds) :
    countForPath intFuzz methods item = some ds.length := by
  unfold buildForPath at hb
  unfold countForPath
  refine concatMapMO_count _ _ (opsOf item) ?_ hb
  intro mo _ bs hbs
  rcases mo with ⟨m, _ | op⟩
  · simp at hbs
    simp [hbs]
  · by_cases hm : methods.contains m
    · simp only [hm, if_true] at hbs ⊢
      exact buildForOp_count _ _ _ _ _ _ _ _ hbs
    · simp only [hm] at hbs ⊢
      simp at hbs
      simp [hbs]

/-- Claim C3: for every input document, method filter and fuzz flag, when
the production loop completes, the request count computed up front equals
the number of descriptors sent to the worker channel. -/
theorem claim_c3 (api : OpenAPI) (host : List Char) (methods : List String)
    (intFuzz : Bool) (headerMap overrides : List (String × String))
    {ds : List RequestDescriptor}
    (hb : buildDescriptors api host methods intFuzz headerMap overrides = some ds) :
    countRequests api methods intFuzz = some ds.length := by
  unfold buildDescriptors at hb
  unfold countRequests
  refine concatMapMO_count _ _ api.paths ?_ hb
  intro pi _ bs hbs
  exact buildForPath_count _ _ _ _ _ _ _ hbs

/-- Claim C2: for every operation that passes the method filter and does
not panic, exactly one descriptor is produced when global fuzzing is
disabled or the operation has no top-level integer-typed parameter or
body schema, and exactly 32 (one per fuzz value) when fuzzing is enabled
and the operation is eligible. -/
theorem claim_c2 (normalizedHost : List Char)
    (headerMap overrides : List (String × String)) (intFuzz : Bool)
    (method : String) (path : List Char) (pathParams : List Parameter)
    (operation : Operation) (hasIntegers : Bool)
    {ds : List RequestDescriptor}
    (hhi : hasIntegerParams operation pathParams = some hasIntegers)
    (hb : buildForOp normalizedHost headerMap overrides intFuzz method path
        pathParams operation = some ds) :
    ds.length = if intFuzz && hasIntegers then 32 else 1 := by
  unfold buildForOp at hb
  rcases Option.bind_eq_some.mp hb with ⟨hi, hhi2, hmap⟩
  rw [hhi] at hhi2
  injection hhi2 with hhi2
  subst hhi2
  have hlen := mapMO_length _ hmap
  unfold fuzzValuesFor at hlen
  by_cases hcase : intFuzz && hasIntegers <;> simp [hcase] at hlen ⊢ <;> simp [hlen]
  rfl

/-- Witness for C2 on a one-operation document without integers. -/
theorem claim_c2_witness :
    hasIntegerParams ⟨[], none⟩ [] = some false ∧
    buildForOp "h".toList [] [] false "GET" "/x".toList [] ⟨[], none⟩ =
      some [⟨"GET", "h/x".toList, none, []⟩] ∧
    ([(⟨"GET", "h/x".toList, none, []⟩ : RequestDescriptor)].length =
      if false && false then 32 else 1) :=
  ⟨rfl, rfl, claim_c2 "h".toList [] [] false "GET" "/x".toList [] ⟨[], none⟩ false rfl rfl⟩

/-- Removing a parameter whose location is neither `path` nor `query`
(after body folding) from the loop leaves the state unchanged. -/
theorem procParams_drop (method : String) (intFuzz : Bool) (fuzzValue : Int)
    (overrides : List (String × String)) (p : Parameter)
    (hloc : p.paramIn = "header" ∨ p.paramIn = "cookie") :
    ∀ (xs ys : List Parameter) (st st' : ProcState),
      procParams method intFuzz fuzzValue overrides (xs ++ p :: ys) st = some st' →
      procParams method intFuzz fuzzValue overrides (xs ++ ys) st = some st' := by
  intro xs
  induction xs with
  | nil =>
    intro ys st st' h
    simp only [List.nil_append] at h ⊢
    simp only [procParams] at h
    rcases Option.bind_eq_some.mp h with ⟨v, hv, hrest⟩
    have hstep : procStep method p v st = st := by
      rcases hloc with hl | hl <;> simp [procStep, hl]
    rw [hstep] at hrest
    exact hrest
  | cons x xs ih =>
    intro ys st st' h
    simp only [List.cons_append, procParams] at h ⊢
    rcases Option.bind_eq_some.mp h with ⟨v, hv, hrest⟩
    rw [hv, Option.some_bind]
    exact ih ys _ _ hrest

/-- Claim C10: a parameter located in `header` or `cookie` contributes
nothing to the produced descriptor: building with it yields exactly the
descriptor built without it (same URL, query, body and headers) - such
parameters are silently dropped. -/
theorem claim_c10 (normalizedHost : List Char)
    (headerMap overrides : List (String × String)) (intFuzz : Bool)
    (method : String) (path : List Char) (xs ys : List Parameter)
    (p : Parameter) (requestBody : Option (List (String × GoVal)))
    (fuzzValue : Int) {d : RequestDescriptor}
    (hloc : p.paramIn = "header" ∨ p.paramIn = "cookie")
    (hb : buildOneDescriptor normalizedHost headerMap overrides intFuzz method
        path (xs ++ p :: ys) requestBody fuzzValue = some d) :
    buildOneDescriptor normalizedHost headerMap overrides intFuzz method path
      (xs ++ ys) requestBody fuzzValue = some d := by
  unfold buildOneDescriptor at hb ⊢
  rcases Option.bind_eq_some.mp hb with ⟨st, hst, hrest⟩
  rw [procParams_drop method intFuzz fuzzValue overrides p hloc xs ys _ _ hst,
    Option.some_bind]
  exact hrest

/-- `replGo` ignores the exact fuel once it exceeds the string length. -/
theorem replGo_fuel : ∀ (fuel fuel' : Nat) (s pat rep : List Char),
    s.length < fuel → s.length < fuel' →
    replGo fuel s pat rep = replGo fuel' s pat rep := by
  intro fuel
  induction fuel with
  | zero => intro fuel' s pat rep h; exact absurd h (by omega)
  | succ f ih =>
    intro fuel' s pat rep h h'
    match fuel', s with
    | f' + 1, [] => simp [replGo]
    | f' + 1, c :: rest =>
      simp only [replGo]
      by_cases hc : pat ≠ [] ∧ pat <+: (c :: rest)
      · rw [if_pos hc, if_pos hc]
        have hlen : (List.drop pat.length (c :: rest)).length < f := by
          have : pat.length ≥ 1 := by
            cases pat with
            | nil => exact absurd rfl hc.1
            | cons a l => simp
          simp only [List.length_drop, List.length_cons] at *
          omega
        have hlen' : (List.drop pat.length (c :: rest)).length < f' := by
          have : pat.length ≥ 1 := by
            cases pat with
            | nil => exact absurd rfl hc.1
            | cons a l => simp
          simp only [List.length_drop, List.length_cons] at *
          omega
        rw [ih f' _ pat rep hlen hlen']
      · rw [if_neg hc, if_neg hc]
        have : rest.length < f := by simp at h; omega
        have h2 : rest.length < f' := by simp at h'; omega
        rw [ih f' rest pat rep this h2]

/-- `strings.Replace` walks over text that cannot start a match (the
pattern starts with an open brace, the text has none). -/
theorem goReplace_skip (pat rep : List Char) (hhead : pat.head? = some obr) :
    ∀ (xs ys : List Char), (∀ c ∈ xs, c ≠ obr) →
      goReplace (xs ++ ys) pat rep = xs ++ goReplace ys pat rep := by
  intro xs
  induction xs with
  | nil => intro ys _; simp
  | cons c xs ih =>
    intro ys hc
    have hnp : ¬(pat ≠ [] ∧ pat <+: (c :: (xs ++ ys))) := by
      rintro ⟨hne, hp⟩
      match pat, hhead with
      | _ :: pt, hhead =>
        simp at hhead
        rcases List.cons_prefix_cons.mp hp with ⟨heq, -⟩
        exact hc c (by simp) (by rw [← heq, hhead])
    show replGo ((c :: (xs ++ ys)).length + 1) (c :: (xs ++ ys)) pat rep = _
    simp only [replGo, if_neg hnp, List.length_cons]
    have : replGo ((xs ++ ys).length + 1) (xs ++ ys) pat rep =
        goReplace (xs ++ ys) pat rep := rfl
    rw [this, ih ys (fun a ha => hc a (by simp [ha]))]
    simp

/-- `strings.Replace` replaces a pattern occurrence at the head. -/
theorem goReplace_match (pat rep ys : List Char) (hne : pat ≠ []) :
    goReplace (pat ++ ys) pat rep = rep ++ goReplace ys pat rep := by
  match pat, hne with
  | c :: pt, _ =>
    have hp : (c :: pt) ≠ [] ∧ (c :: pt) <+: (c :: (pt ++ ys)) := by
      constructor
      · simp
      · exact ⟨ys, by simp⟩
    show replGo (((c :: pt) ++ ys).length + 1) (c :: (pt ++ ys)) (c :: pt) rep = _
    simp only [replGo, if_pos hp]
    congr 1
    have hdrop : List.drop (c :: pt).length (c :: (pt ++ ys)) = ys := by
      have := List.drop_left (c :: pt) ys
      simp only [List.cons_append] at this
      exact this
    rw [hdrop]
    apply replGo_fuel
    · simp
      omega
    · simp

/-- Members of a brace-free string are not braces. -/
theorem braceFree_mem {s : List Char} (h : braceFree s = true) :
    ∀ c ∈ s, c ≠ obr ∧ c ≠ cbr := by
  intro c hc
  simp only [braceFree, List.all_eq_true] at h
  have := h c hc
  simp at this
  exact this

/-- Two distinct close-brace-free names followed by a close brace cannot
be prefixes of one another. -/
theorem prefix_cbr_false : ∀ (n m ys : List Char),
    (∀ c ∈ n, c ≠ cbr) → (∀ c ∈ m, c ≠ cbr) → n ≠ m →
    ¬(n ++ [cbr] <+: m ++ cbr :: ys) := by
  intro n
  induction n with
  | nil =>
    intro m ys _ hm hne hp
    cases m with
    | nil => exact hne rfl
    | cons b m' =>
      simp only [List.nil_append, List.cons_append] at hp
      rcases List.cons_prefix_cons.mp hp with ⟨heq, -⟩
      exact hm b (by simp) heq.symm
  | cons a n' ih =>
    intro m ys hn hm hne hp
    cases m with
    | nil =>
      simp only [List.cons_append, List.nil_append] at hp
      rcases List.cons_prefix_cons.mp hp with ⟨heq, -⟩
      exact hn a (by simp) heq
    | cons b m' =>
      simp only [List.cons_append] at hp
      rcases List.cons_prefix_cons.mp hp with ⟨heq, hp'⟩
      subst heq
      refine ih m' ys (fun c hc => hn c (by simp [hc])) (fun c hc => hm c (by simp [hc])) ?_ hp'
      intro hc
      exact hne (by rw [hc])

/-- A placeholder pattern starts with an open brace. -/
theorem mkPat_head (n : List Char) : (mkPat n).head? = some obr := rfl

/-- `strings.Replace` leaves a placeholder with a different name intact. -/
theorem goReplace_ph (n m ys rep : List Char) (hn : braceFree n = true)
    (hm : braceFree m = true) (hne : m ≠ n) :
    goReplace (mkPat m ++ ys) (mkPat n) rep =
      mkPat m ++ goReplace ys (mkPat n) rep := by
  have hshape : mkPat m ++ ys = obr :: (m ++ cbr :: ys) := by
    simp [mkPat]
  have hnp : ¬(mkPat n ≠ [] ∧ mkPat n <+: (obr :: (m ++ cbr :: ys))) := by
    rintro ⟨-, hp⟩
    simp only [mkPat] at hp
    rcases List.cons_prefix_cons.mp hp with ⟨-, hp'⟩
    refine prefix_cbr_false n m ys (fun c hc => (braceFree_mem hn c hc).2)
      (fun c hc => (braceFree_mem hm c hc).2) ?_ hp'
    intro hc
    exact hne hc.symm
  rw [hshape]
  show replGo ((obr :: (m ++ cbr :: ys)).length + 1) _ _ _ = _
  simp only [replGo, if_neg hnp, List.length_cons]
  have hcanon : replGo ((m ++ cbr :: ys).length + 1) (m ++ cbr :: ys) (mkPat n) rep =
      goReplace (m ++ cbr :: ys) (mkPat n) rep := rfl
  rw [hcanon]
  have hsplit : m ++ cbr :: ys = (m ++ [cbr]) ++ ys := by simp
  rw [hsplit, goReplace_skip (mkPat n) rep (mkPat_head n) (m ++ [cbr]) ys ?_]
  · simp [mkPat]
  · intro c hc
    rcases List.mem_append.mp hc with h1 | h1
    · exact (braceFree_mem hm c h1).1
    · simp at h1
      subst h1
      intro h
      exact absurd (congrArg Char.toNat h) (by decide)

/-- Well-formedness of a template, unfolded one token. -/
theorem wfT_cons {t : PathToken} {ts : List PathToken} :
    wfT (t :: ts) = true ↔ tokOK t = true ∧ wfT ts = true := by
  simp [wfT]

/-- The key template lemma: `strings.Replace` on the rendered template is
exactly rendering the substituted template. -/
theorem goReplace_render (n v : List Char) (hn : braceFree n = true) :
    ∀ ts, wfT ts = true →
      goReplace (renderT ts) (mkPat n) v = renderT (substT n v ts) := by
  intro ts
  induction ts with
  | nil => intro _; rfl
  | cons t ts ih =>
    intro hwf
    rcases wfT_cons.mp hwf with ⟨ht, hts⟩
    cases t with
    | lit s =>
      show goReplace (s ++ renderT ts) (mkPat n) v = _
      rw [goReplace_skip (mkPat n) v (mkPat_head n) s (renderT ts)
        (fun c hc => (braceFree_mem (by simpa [tokOK] using ht) c hc).1)]
      rw [ih hts]
      rfl
    | ph m =>
      by_cases hmn : m = n
      · subst hmn
        show goReplace (mkPat m ++ renderT ts) (mkPat m) v = _
        rw [goReplace_match (mkPat m) v (renderT ts) (by simp [mkPat])]
        rw [ih hts]
        simp [substT, substTok, renderT, renderTok]
      · show goReplace (mkPat m ++ renderT ts) (mkPat n) v = _
        rw [goReplace_ph n m (renderT ts) v hn (by simpa [tokOK] using ht) hmn]
        rw [ih hts]
        simp [substT, substTok, renderT, renderTok, hmn]

/-- Substituting a brace-free value preserves template well-formedness. -/
theorem wfT_substT (n v : List Char) (hv : braceFree v = true) :
    ∀ ts, wfT ts = true → wfT (substT n v ts) = true := by
  intro ts
  induction ts with
  | nil => intro _; rfl
  | cons t ts ih =>
    intro hwf
    rcases wfT_cons.mp hwf with ⟨ht, hts⟩
    have hrest := ih hts
    cases t with
    | lit s => exact wfT_cons.mpr ⟨ht, hrest⟩
    | ph m =>
      by_cases hmn : m = n
      · exact wfT_cons.mpr ⟨by simp [substTok, hmn, tokOK, hv], hrest⟩
      · exact wfT_cons.mpr ⟨by simpa [substTok, hmn, tokOK] using ht, hrest⟩

/-- Placeholders surviving a substitution were already there and have a
different name. -/
theorem ph_mem_substT {m n v : List Char} {ts : List PathToken} :
    PathToken.ph m ∈ substT n v ts → PathToken.ph m ∈ ts ∧ m ≠ n := by
  intro h
  rcases List.mem_map.mp h with ⟨t, ht, heq⟩
  cases t with
  | lit s => simp [substTok] at heq
  | ph k =>
    by_cases hkn : k = n
    · simp [substTok, hkn] at heq
    · simp only [substTok, if_neg hkn] at heq
      cases heq
      exact ⟨ht, hkn⟩

/-- Substituting a name with no placeholder left is the identity. -/
theorem substT_id (n v : List Char) :
    ∀ ts, (PathToken.ph n ∉ ts) → substT n v ts = ts := by
  intro ts
  induction ts with
  | nil => intro _; rfl
  | cons t ts ih =>
    intro h
    have hrest : PathToken.ph n ∉ ts := fun hc => h (by simp [hc])
    cases t with
    | lit s => simp [substT, substTok] at ih ⊢; exact ih hrest
    | ph k =>
      have hkn : k ≠ n := by
        intro hc
        exact h (by simp [hc])
      simp [substT, substTok, hkn] at ih ⊢
      exact ih hrest

/-- A well-formed template with no placeholders renders brace-free. -/
theorem renderT_braceFree :
    ∀ ts, wfT ts = true → (∀ m, PathToken.ph m ∉ ts) →
      braceFree (renderT ts) = true := by
  intro ts
  induction ts with
  | nil => intro _ _; rfl
  | cons t ts ih =>
    intro hwf hph
    rcases wfT_cons.mp hwf with ⟨ht, hts⟩
    have hrest := ih hts (fun m hc => hph m (by simp [hc]))
    cases t with
    | lit s =>
      show braceFree (s ++ renderT ts) = true
      simp only [braceFree, List.all_append] at *
      simp only [tokOK, braceFree] at ht
      rw [ht, hrest]
      rfl
    | ph m => exact absurd (by simp : PathToken.ph m ∈ PathToken.ph m :: ts) (hph m)

/-- Brace-freedom is preserved by append. -/
theorem braceFree_append {a b : List Char} (ha : braceFree a = true)
    (hb : braceFree b = true) : braceFree (a ++ b) = true := by
  simp only [braceFree, List.all_append] at *
  rw [ha, hb]
  rfl

/-- Brace-freedom is preserved by consing a non-brace character. -/
theorem braceFree_cons {c : Char} {l : List Char} (h1 : c ≠ obr)
    (h2 : c ≠ cbr) (hl : braceFree l = true) : braceFree (c :: l) = true := by
  simp only [braceFree, List.all_cons, Bool.and_eq_true] at *
  refine ⟨by simp [h1, h2], hl⟩

/-- A brace-free string has no placeholder. -/
theorem braceFree_no_placeholder :
    ∀ {s : List Char}, braceFree s = true → hasPlaceholder s = false := by
  intro s
  induction s with
  | nil => intro _; rfl
  | cons c rest ih =>
    intro h
    have hc : c ≠ obr ∧ c ≠ cbr := braceFree_mem h c (by simp)
    have hrest : braceFree rest = true := by
      simp only [braceFree, List.all_cons, Bool.and_eq_true] at h
      exact h.2
    simp only [hasPlaceholder, if_neg hc.1]
    exact ih hrest

/-- Hex digits are not braces. -/
theorem hexDigitU_braceFree : ∀ n, hexDigitU n ≠ obr ∧ hexDigitU n ≠ cbr := by
  intro n
  unfold hexDigitU
  split <;> exact ⟨by decide, by decide⟩

/-- `url.QueryEscape` emits no braces for a single character (braces
themselves are percent-escaped). -/
theorem queryEscapeChar_braceFree (c : Char) :
    braceFree (queryEscapeChar c) = true := by
  unfold queryEscapeChar
  by_cases hu : isUnreservedQuery c = true
  · rw [if_pos hu]
    have hc : c ≠ obr ∧ c ≠ cbr := by
      constructor <;> intro h <;> subst h <;> revert hu <;> decide
    simp [braceFree, hc.1, hc.2]
  · rw [if_neg hu]
    by_cases hs : c = ' '
    · rw [if_pos hs]
      decide
    · rw [if_neg hs]
      have h1 := hexDigitU_braceFree (c.toNat / 16 % 16)
      have h2 := hexDigitU_braceFree (c.toNat % 16)
      simp [braceFree, h1.1, h1.2, h2.1, h2.2]
      decide

/-- `url.QueryEscape` output is brace-free. -/
theorem queryEscape_braceFree (s : String) : braceFree (queryEscape s) = true := by
  unfold queryEscape
  induction s.toList with
  | nil => rfl
  | cons c rest ih =>
    simp only [List.foldr_cons]
    exact braceFree_append (queryEscapeChar_braceFree c) ih

/-- Joining brace-free components with an ampersand is brace-free. -/
theorem joinAmp_braceFree :
    ∀ (parts : List (List Char)), (∀ x ∈ parts, braceFree x = true) →
      braceFree (joinAmp parts) = true := by
  intro parts
  induction parts with
  | nil => intro _; rfl
  | cons x rest ih =>
    intro h
    match rest, ih with
    | [], _ => exact h x (by simp)
    | y :: rest', ih =>
      show braceFree (x ++ '&' :: joinAmp (y :: rest')) = true
      refine braceFree_append (h x (by simp)) ?_
      exact braceFree_cons (by decide) (by decide)
        (ih (fun z hz => h z (by simp [hz])))

/-- `url.Values.Encode` output is brace-free. -/
theorem encodeQuery_braceFree (q : List (String × String)) :
    braceFree (encodeQuery q) = true := by
  unfold encodeQuery
  refine joinAmp_braceFree _ ?_
  intro x hx
  rcases List.mem_map.mp hx with ⟨k, -, hk⟩
  subst hk
  refine joinAmp_braceFree _ ?_
  intro y hy
  rcases List.mem_map.mp hy with ⟨v, -, hv⟩
  subst hv
  refine braceFree_append (queryEscape_braceFree k) ?_
  exact braceFree_cons (by decide) (by decide) (queryEscape_braceFree v)

/-- Tracking the URL through the parameter loop: if the URL starts as a
well-formed rendered template and all path-parameter names and rendered
values are brace-free, the URL stays a rendered well-formed template, and
every surviving placeholder was in the original template and matches no
processed path parameter. -/
theorem procParams_url (method : String) (intFuzz : Bool) (fuzzValue : Int)
    (overrides : List (String × String)) :
    ∀ (L : List Parameter) (ts : List PathToken) (st st' : ProcState),
      wfT ts = true →
      st.url = renderT ts →
      (∀ p ∈ L, ∀ w, getDummyValue p.schema p.exampl intFuzz fuzzValue p.name
        overrides = some w → braceFree (goSprint w).toList = true) →
      (∀ p ∈ L, braceFree p.name.toList = true) →
      procParams method intFuzz fuzzValue overrides L st = some st' →
      ∃ ts', wfT ts' = true ∧ st'.url = renderT ts' ∧
        ∀ m, PathToken.ph m ∈ ts' →
          PathToken.ph m ∈ ts ∧
            ∀ p ∈ L, p.paramIn = "path" → p.name.toList ≠ m := by
  intro L
  induction L with
  | nil =>
    intro ts st st' hwf hurl _ _ hp
    simp only [procParams, Option.some.injEq] at hp
    subst hp
    exact ⟨ts, hwf, hurl, fun m hm => ⟨hm, by simp⟩⟩
  | cons p L ih =>
    intro ts st st' hwf hurl hvals hnames hp
    simp only [procParams] at hp
    rcases Option.bind_eq_some.mp hp with ⟨w, hw, hrest⟩
    have hvals' : ∀ q ∈ L, ∀ w, getDummyValue q.schema q.exampl intFuzz
        fuzzValue q.name overrides = some w →
        braceFree (goSprint w).toList = true :=
      fun q hq => hvals q (by simp [hq])
    have hnames' : ∀ q ∈ L, braceFree q.name.toList = true :=
      fun q hq => hnames q (by simp [hq])
    by_cases h1 : (bodyMethod method && p.paramIn == "query") = true
    · have hstep : procStep method p w st = { st with bodyParams := upsert st.bodyParams p.name w } := by
        simp [procStep, h1]
      rw [hstep] at hrest
      have hpq : p.paramIn = "query" := by
        have h1' : bodyMethod method = true ∧ p.paramIn = "query" := by
          simpa using h1
        exact h1'.2
      rcases ih ts { st with bodyParams := upsert st.bodyParams p.name w } st'
        hwf hurl hvals' hnames' hrest with ⟨ts', h1', h2', h3'⟩
      refine ⟨ts', h1', h2', fun m hm => ?_⟩
      rcases h3' m hm with ⟨hmem, hL⟩
      refine ⟨hmem, fun q hq hqpath => ?_⟩
      rcases List.mem_cons.mp hq with hq | hq
      · subst hq
        rw [hqpath] at hpq
        exact absurd hpq (by decide)
      · exact hL q hq hqpath
    · by_cases h2 : (p.paramIn == "path") = true
      · have hppath : p.paramIn = "path" := by simpa using h2
        have hstep : procStep method p w st = { st with url := goReplace st.url (mkPat p.name.toList) (goSprint w).toList } := by
          simp [procStep, h1, h2]
        rw [hstep] at hrest
        have hbn : braceFree p.name.toList = true := hnames p (by simp)
        have hbv : braceFree (goSprint w).toList = true := hvals p (by simp) w hw
        have hts2 : goReplace st.url (mkPat p.name.toList) (goSprint w).toList =
            renderT (substT p.name.toList (goSprint w).toList ts) := by
          rw [hurl]
          exact goReplace_render _ _ hbn ts hwf
        have hwf2 : wfT (substT p.name.toList (goSprint w).toList ts) = true :=
          wfT_substT _ _ hbv ts hwf
        rcases ih (substT p.name.toList (goSprint w).toList ts)
          { st with url := goReplace st.url (mkPat p.name.toList) (goSprint w).toList } st'
          hwf2 hts2 hvals' hnames' hrest with ⟨ts', h1', h2', h3'⟩
        refine ⟨ts', h1', h2', fun m hm => ?_⟩
        rcases h3' m hm with ⟨hmem, hL⟩
        rcases ph_mem_substT hmem with ⟨hmem2, hne⟩
        refine ⟨hmem2, fun q hq hqpath => ?_⟩
        rcases List.mem_cons.mp hq with hq | hq
        · subst hq
          intro hc
          exact hne hc.symm
        · exact hL q hq hqpath
      · have hstep : ∃ q', procStep method p w st = { st with query := q' } := by
          by_cases h3 : (p.paramIn == "query") = true
          · refine ⟨st.query ++ [(p.name, goSprint w)], ?_⟩
            simp only [procStep]
            rw [if_neg h1, if_neg h2, if_pos h3]
          · refine ⟨st.query, ?_⟩
            simp only [procStep]
            rw [if_neg h1, if_neg h2, if_neg h3]
        rcases hstep with ⟨q', hstep⟩
        rw [hstep] at hrest
        rcases ih ts { st with query := q' } st' hwf hurl hvals' hnames' hrest
          with ⟨ts', h1', h2', h3'⟩
        refine ⟨ts', h1', h2', fun m hm => ?_⟩
        rcases h3' m hm with ⟨hmem, hL⟩
        refine ⟨hmem, fun q hq hqpath => ?_⟩
        rcases List.mem_cons.mp hq with hq | hq
        · subst hq
          rw [hqpath] at h2
          exact absurd h2 (by decide)
        · exact hL q hq hqpath

/-- Members of a successful `mapMO` come from members of the input. -/
theorem mapMO_mem {α β : Type _} {f : α → Option β} :
    ∀ {l : List α} {ys : List β}, mapMO f l = some ys →
      ∀ y ∈ ys, ∃ a ∈ l, f a = some y := by
  intro l
  induction l with
  | nil => intro ys h y hy; simp [mapMO] at h; subst h; simp at hy
  | cons a rest ih =>
    intro ys h y hy
    simp only [mapMO] at h
    rcases Option.bind_eq_some.mp h with ⟨b, hb, hrest⟩
    rcases Option.map_eq_some'.mp hrest with ⟨bs, hbs, hys⟩
    subst hys
    rcases List.mem_cons.mp hy with hy | hy
    · exact ⟨a, by simp, hy ▸ hb⟩
    · rcases ih hbs y hy with ⟨a', ha', hfa'⟩
      exact ⟨a', by simp [ha'], hfa'⟩

/-- Members of a successful `concatMapMO` come from some input element. -/
theorem concatMapMO_mem {α β : Type _} {f : α → Option (List β)} :
    ∀ {l : List α} {ds : List β}, concatMapMO f l = some ds →
      ∀ d ∈ ds, ∃ a ∈ l, ∃ bs, f a = some bs ∧ d ∈ bs := by
  intro l
  induction l with
  | nil => intro ds h d hd; simp [concatMapMO] at h; subst h; simp at hd
  | cons a rest ih =>
    intro ds h d hd
    simp only [concatMapMO] at h
    rcases Option.bind_eq_some.mp h with ⟨bs, hbs, hrest⟩
    rcases Option.map_eq_some'.mp hrest with ⟨cs, hcs, hds⟩
    subst hds
    rcases List.mem_append.mp hd with hd | hd
    · exact ⟨a, by simp, bs, hbs, hd⟩
    · rcases ih hcs d hd with ⟨a', ha', bs', hbs', hd'⟩
      exact ⟨a', by simp [ha'], bs', hbs', hd'⟩

/-- A single built descriptor has a placeholder-free URL whenever the
path is a well-formed template whose placeholders are all covered by
path-located parameters with brace-free names and values. -/
theorem buildOne_no_placeholder (normalizedHost : List Char)
    (headerMap overrides : List (String × String)) (intFuzz : Bool)
    (method : String) (path : List Char) (allParams : List Parameter)
    (requestBody : Option (List (String × GoVal))) (fuzzValue : Int)
    {d : RequestDescriptor} (T : List PathToken)
    (hwf : wfT T = true)
    (hurl : normalizedHost ++ path = renderT T)
    (hcov : ∀ m, PathToken.ph m ∈ T →
      ∃ p, p ∈ allParams ∧ p.paramIn = "path" ∧ p.name.toList = m)
    (hvals : ∀ p ∈ allParams, ∀ w,
      getDummyValue p.schema p.exampl intFuzz fuzzValue p.name overrides = some w →
      braceFree (goSprint w).toList = true)
    (hnames : ∀ p ∈ allParams, braceFree p.name.toList = true)
    (hb : buildOneDescriptor normalizedHost headerMap overrides intFuzz method
        path allParams requestBody fuzzValue = some d) :
    hasPlaceholder d.url = false := by
  unfold buildOneDescriptor at hb
  rcases Option.bind_eq_some.mp hb with ⟨st, hst, hrest⟩
  rcases Option.map_eq_some'.mp hrest with ⟨b, -, hd⟩
  rcases procParams_url method intFuzz fuzzValue overrides allParams T
    ⟨normalizedHost ++ path, [], []⟩ st hwf hurl hvals hnames hst
    with ⟨ts', hwf', hurl', hmem⟩
  have hnoph : ∀ m, PathToken.ph m ∉ ts' := by
    intro m hm
    rcases hmem m hm with ⟨hT, hall⟩
    rcases hcov m hT with ⟨p, hp, hpath, hname⟩
    exact hall p hp hpath hname
  have hbf : braceFree st.url = true := by
    rw [hurl']
    exact renderT_braceFree ts' hwf' hnoph
  have hurlbf : braceFree (if st.query.isEmpty then st.url
      else st.url ++ '?' :: encodeQuery st.query) = true := by
    by_cases hq : st.query.isEmpty
    · rw [if_pos hq]; exact hbf
    · rw [if_neg hq]
      exact braceFree_append hbf
        (braceFree_cons (by decide) (by decide) (encodeQuery_braceFree st.query))
  have : d.url = (if st.query.isEmpty then st.url
      else st.url ++ '?' :: encodeQuery st.query) := by
    rw [← hd]
  rw [this]
  exact braceFree_no_placeholder hurlbf

/-- Claim C4 (amended): every dispatched URL is placeholder-free,
provided each path template is well-formed (brace-free literals and
names), every placeholder is covered by a merged path-located parameter,
and parameter names and rendered values are brace-free.  (Without the
coverage hypothesis the claim fails; see the counterexample.) -/
theorem claim_c4 (api : OpenAPI) (host : List Char) (methods : List String)
    (intFuzz : Bool) (headerMap overrides : List (String × String))
    {ds : List RequestDescriptor}
    (hb : buildDescriptors api host methods intFuzz headerMap overrides = some ds)
    (htmpl : ∀ pi ∈ api.paths, ∃ T, wfT T = true ∧
      normalizeHost host ++ pi.1 = renderT T ∧
      ∀ mo ∈ opsOf pi.2, ∀ op, mo.2 = some op → methods.contains mo.1 = true →
        ∀ m, PathToken.ph m ∈ T →
          ∃ p, p ∈ pi.2.parameters ++ op.parameters ∧ p.paramIn = "path" ∧
            p.name.toList = m)
    (hpar : ∀ pi ∈ api.paths, ∀ mo ∈ opsOf pi.2, ∀ op, mo.2 = some op →
      ∀ p ∈ pi.2.parameters ++ op.parameters,
        braceFree p.name.toList = true ∧
        ∀ fv w, getDummyValue p.schema p.exampl intFuzz fv p.name overrides =
          some w → braceFree (goSprint w).toList = true) :
    ∀ d ∈ ds, hasPlaceholder d.url = false := by
  intro d hd
  unfold buildDescriptors at hb
  rcases concatMapMO_mem hb d hd with ⟨pi, hpi, bs, hbs, hdbs⟩
  unfold buildForPath at hbs
  rcases concatMapMO_mem hbs d hdbs with ⟨mo, hmo, cs, hcs, hdcs⟩
  rcases mo with ⟨m, _ | op⟩
  · simp at hcs
    subst hcs
    simp at hdcs
  · by_cases hcont : methods.contains m = true
    · simp only [hcont, if_true] at hcs
      unfold buildForOp at hcs
      rcases Option.bind_eq_some.mp hcs with ⟨hi, -, hmap⟩
      rcases mapMO_mem hmap d hdcs with ⟨fv, -, hbuild⟩
      rcases htmpl pi hpi with ⟨T, hwf, hurl, hcov⟩
      refine buildOne_no_placeholder _ _ _ _ _ _ _ _ _ T hwf hurl
        (hcov (m, some op) hmo op rfl hcont) ?_ ?_ hbuild
      · intro p hp w hw
        exact (hpar pi hpi (m, some op) hmo op rfl p hp).2 fv w hw
      · intro p hp
        exact (hpar pi hpi (m, some op) hmo op rfl p hp).1
    · simp only [hcont] at hcs
      simp at hcs
      subst hcs
      simp at hdcs

/-- Claim C5 (amended): when a path-level and an operation-level
parameter share a name and both are path-located, the merge is the
deterministic concatenation path-level-then-operation-level, and the
PATH-LEVEL definition takes effect: the operation-level duplicate has no
effect on the produced descriptor (its replacement finds no placeholder
left). -/
theorem claim_c5 (normalizedHost : List Char)
    (headerMap overrides : List (String × String)) (intFuzz : Bool)
    (method : String) (path : List Char)
    (rb : Option (List (String × GoVal))) (fv : Int) (p q : Parameter)
    (T : List PathToken) {d : RequestDescriptor}
    (hwf : wfT T = true)
    (hurl : normalizedHost ++ path = renderT T)
    (hname : q.name = p.name)
    (hp : p.paramIn = "path") (hq : q.paramIn = "path")
    (hpn : braceFree p.name.toList = true)
    (hpv : ∀ w, getDummyValue p.schema p.exampl intFuzz fv p.name overrides =
      some w → braceFree (goSprint w).toList = true)
    (hb : buildOneDescriptor normalizedHost headerMap overrides intFuzz method
        path [p, q] rb fv = some d) :
    buildOneDescriptor normalizedHost headerMap overrides intFuzz method path
      [p] rb fv = some d := by
  unfold buildOneDescriptor at hb ⊢
  rcases Option.bind_eq_some.mp hb with ⟨st, hst, hrest⟩
  simp only [procParams] at hst
  rcases Option.bind_eq_some.mp hst with ⟨w, hw, hst1⟩
  have hstep1 : procStep method p w ⟨normalizedHost ++ path, [], []⟩ =
      ⟨goReplace (normalizedHost ++ path) (mkPat p.name.toList)
        (goSprint w).toList, [], []⟩ := by
    simp [procStep, hp]
  rw [hstep1] at hst1
  rcases Option.bind_eq_some.mp hst1 with ⟨w2, hw2, hst2⟩
  simp only [procParams, Option.some.injEq] at hst2
  have hts2 : goReplace (normalizedHost ++ path) (mkPat p.name.toList)
      (goSprint w).toList =
      renderT (substT p.name.toList (goSprint w).toList T) := by
    rw [hurl]
    exact goReplace_render _ _ hpn T hwf
  have hbv : braceFree (goSprint w).toList = true := hpv w hw
  have hwf2 : wfT (substT p.name.toList (goSprint w).toList T) = true :=
    wfT_substT _ _ hbv T hwf
  have hnoph : PathToken.ph p.name.toList ∉
      substT p.name.toList (goSprint w).toList T := by
    intro hc
    exact absurd rfl (ph_mem_substT hc).2
  have hstep2 : procStep method q w2
      (⟨goReplace (normalizedHost ++ path) (mkPat p.name.toList)
        (goSprint w).toList, [], []⟩ : ProcState) =
      ⟨goReplace (normalizedHost ++ path) (mkPat p.name.toList)
        (goSprint w).toList, [], []⟩ := by
    have hrepl : goReplace
        (goReplace (normalizedHost ++ path) (mkPat p.name.toList)
          (goSprint w).toList)
        (mkPat q.name.toList) (goSprint w2).toList =
        goReplace (normalizedHost ++ path) (mkPat p.name.toList)
          (goSprint w).toList := by
      rw [hts2, hname]
      rw [goReplace_render _ _ hpn _ hwf2]
      rw [substT_id _ _ _ hnoph]
    simp [procStep, hq]
    exact hrepl
  rw [hstep2] at hst2
  subst hst2
  simp only [procParams, hw, Option.some_bind, hstep1]
  exact hrest

/-- Claim C5 (counterexample to the original statement): with a
path-level id (example "A") and an operation-level id (example "B"),
the dispatched URL resolves to the path-level value "A", so the
operation-level parameter does not take effect. -/
theorem claim_c5_counterexample :
    buildOneDescriptor "h".toList [] [] false "GET"
        ("/x/".toList ++ mkPat "id".toList)
        [⟨"id", "path", true, [], some (.str "A")⟩,
         ⟨"id", "path", true, [], some (.str "B")⟩] none 1000 =
      some ⟨"GET", "h/x/A".toList, none, []⟩ ∧
    "h/x/A".toList ≠ "h/x/B".toList := ⟨rfl, by decide⟩

/-- Witness for C5 at a concrete template and parameter pair. -/
theorem claim_c5_witness :
    wfT [PathToken.lit "h/x/".toList, PathToken.ph "id".toList] = true ∧
    buildOneDescriptor "h".toList [] [] false "GET"
        ("/x/".toList ++ mkPat "id".toList)
        [⟨"id", "path", true, [], some (.str "A")⟩] none 1000 =
      some ⟨"GET", "h/x/A".toList, none, []⟩ :=
  ⟨rfl,
   claim_c5 "h".toList [] [] false "GET"
     ("/x/".toList ++ mkPat "id".toList) none 1000
     ⟨"id", "path", true, [], some (.str "A")⟩
     ⟨"id", "path", true, [], some (.str "B")⟩
     [PathToken.lit "h/x/".toList, PathToken.ph "id".toList]
     rfl rfl rfl rfl rfl rfl
     (fun w h => by
       rw [show getDummyValue [] (some (GoVal.str "A")) false 1000 "id" [] =
         some (GoVal.str "A") from rfl] at h
       injection h with h
       subst h
       decide)
     rfl⟩

/-- For a body-carrying method, the body mapping accumulated by the
parameter loop is exactly the folded query-declared parameter mapping
described by the spec. -/
theorem procParams_body (method : String) (intFuzz : Bool) (fv : Int)
    (overrides : List (String × String)) (hbm : bodyMethod method = true) :
    ∀ (L : List Parameter) (st st' : ProcState),
      procParams method intFuzz fv overrides L st = some st' →
      foldedQueryParams intFuzz fv overrides L st.bodyParams =
        some st'.bodyParams := by
  intro L
  induction L with
  | nil =>
    intro st st' h
    simp only [procParams, Option.some.injEq] at h
    subst h
    rfl
  | cons p L ih =>
    intro st st' h
    simp only [procParams] at h
    rcases Option.bind_eq_some.mp h with ⟨w, hw, hrest⟩
    by_cases hq : (p.paramIn == "query") = true
    · have hstep : procStep method p w st =
          { st with bodyParams := upsert st.bodyParams p.name w } := by
        simp [procStep, hbm, hq]
      rw [hstep] at hrest
      have := ih _ _ hrest
      simp only [foldedQueryParams, hq, if_true, hw, Option.some_bind]
      exact this
    · rw [Bool.not_eq_true] at hq
      have hbp : (procStep method p w st).bodyParams = st.bodyParams := by
        simp only [procStep, hq, Bool.and_false, Bool.false_eq_true, if_false]
        split <;> rfl
      have := ih _ _ hrest
      rw [hbp] at this
      simp only [foldedQueryParams, hq, Bool.false_eq_true, if_false]
      exact this

/-- Claim C6 (amended): for every POST/PUT/PATCH build that completes:
with no requestBody at all, the body is the canonical JSON serialization
of the folded query-declared parameter mapping, or the empty object when
none were folded; with a requestBody whose content declares an
application/json schema, the body is synthesized from that schema
(folded parameters are discarded); with a requestBody whose content
lacks the application/json key, the body is nil. -/
theorem claim_c6 (normalizedHost : List Char)
    (headerMap overrides : List (String × String)) (intFuzz : Bool)
    (method : String) (path : List Char) (allParams : List Parameter)
    (rb : Option (List (String × GoVal))) (fv : Int) {d : RequestDescriptor}
    (hbm : bodyMethod method = true)
    (hb : buildOneDescriptor normalizedHost headerMap overrides intFuzz method
        path allParams rb fv = some d) :
    (rb = none → ∃ fq,
      foldedQueryParams intFuzz fv overrides allParams [] = some fq ∧
      d.body = some (if fq.isEmpty then [obr, cbr] else goMarshal (.obj fq))) ∧
    (∀ rbf content, rb = some rbf →
      (lookupGo rbf "content").bind asObj = some content →
      ((∀ jc, lookupGo content "application/json" = some jc →
        ∃ jcm schema bd, asObj jc = some jcm ∧
          (lookupGo jcm "schema").bind asObj = some schema ∧
          getDummyValue schema none intFuzz fv "" overrides = some bd ∧
          d.body = some (goMarshal bd)) ∧
       (lookupGo content "application/json" = none → d.body = none))) := by
  unfold buildOneDescriptor at hb
  rcases Option.bind_eq_some.mp hb with ⟨st, hst, hrest⟩
  rcases Option.map_eq_some'.mp hrest with ⟨b, hbody, hd⟩
  have hdb : d.body = b := by rw [← hd]
  constructor
  · intro hrb
    subst hrb
    have hfold := procParams_body method intFuzz fv overrides hbm allParams
      _ _ hst
    refine ⟨st.bodyParams, hfold, ?_⟩
    simp only [bodyFor] at hbody
    rw [hbm] at hbody
    simp only [if_true] at hbody
    by_cases he : st.bodyParams.isEmpty
    · rw [if_pos he] at hbody
      injection hbody with hbody
      rw [hdb, ← hbody, if_pos he]
    · rw [if_neg he] at hbody
      injection hbody with hbody
      rw [hdb, ← hbody, if_neg he]
  · intro rbf content hrb hcontent
    subst hrb
    simp only [bodyFor] at hbody
    rw [hcontent] at hbody
    dsimp only at hbody
    constructor
    · intro jc hjc
      rw [hjc] at hbody
      dsimp only at hbody
      rcases hao : asObj jc with _ | jcm
      · rw [hao] at hbody
        exact absurd hbody (by simp)
      · rw [hao] at hbody
        dsimp only at hbody
        rcases hsc : (lookupGo jcm "schema").bind asObj with _ | schema
        · rw [hsc] at hbody
          exact absurd hbody (by simp)
        · rw [hsc] at hbody
          dsimp only at hbody
          rcases Option.map_eq_some'.mp hbody with ⟨bd, hbd, hbb⟩
          exact ⟨jcm, schema, bd, rfl, hsc, hbd, by rw [hdb, ← hbb]⟩
    · intro hjc
      rw [hjc] at hbody
      dsimp only at hbody
      injection hbody with hbody
      rw [hdb, ← hbody]

/-- Claim C6 (counterexample to the original statement): a POST whose
requestBody declares only text/plain content gets a nil body, not the
folded query-parameter object the claim requires when "no body schema is
declared". -/
theorem claim_c6_counterexample :
    buildOneDescriptor "h".toList [] [] false "POST" "/x".toList
        [⟨"q1", "query", false, [], some (.str "x")⟩]
        (some [("content", GoVal.obj [("text/plain", GoVal.obj [])])]) 1000 =
      some ⟨"POST", "h/x".toList, none, []⟩ ∧
    foldedQueryParams false 1000 []
        [⟨"q1", "query", false, [], some (.str "x")⟩] [] =
      some [("q1", GoVal.str "x")] ∧
    (none : Option (List Char)) ≠
      some (goMarshal (GoVal.obj [("q1", GoVal.str "x")])) :=
  ⟨rfl, rfl, by simp⟩

/-- Claim C4 (counterexample to the original statement): a path template
with a placeholder but no matching path parameter is dispatched with the
placeholder intact. -/
theorem claim_c4_counterexample :
    buildDescriptors ⟨[("/items/".toList ++ mkPat "id".toList,
        ⟨some ⟨[], none⟩, none, none, none, none, []⟩)]⟩ "h".toList ["GET"]
      false [] [] =
      some [⟨"GET", "h/items/".toList ++ mkPat "id".toList, none, []⟩] ∧
    hasPlaceholder ("h/items/".toList ++ mkPat "id".toList) = true :=
  ⟨rfl, rfl⟩

/-- Witness for C4 on a placeholder-free one-path document. -/
theorem claim_c4_witness :
    buildDescriptors ⟨[("/x".toList, ⟨some ⟨[], none⟩, none, none, none, none,
        []⟩)]⟩ "h".toList ["GET"] false [] [] =
      some [⟨"GET", "h/x".toList, none, []⟩] ∧
    ∀ d ∈ [(⟨"GET", "h/x".toList, none, []⟩ : RequestDescriptor)],
      hasPlaceholder d.url = false := by
  refine ⟨rfl, claim_c4 (⟨[("/x".toList, ⟨some ⟨[], none⟩, none, none, none, none, []⟩)]⟩ : OpenAPI) "h".toList ["GET"] false [] [] rfl ?_ ?_⟩
  · intro pi hpi
    simp only [List.mem_singleton] at hpi
    subst hpi
    refine ⟨[PathToken.lit "h/x".toList], rfl, rfl, ?_⟩
    intro mo hmo op hop hcont m hm
    simp at hm
  · intro pi hpi mo hmo op hop p hp
    simp only [List.mem_singleton] at hpi
    subst hpi
    simp only [opsOf, List.mem_cons, List.not_mem_nil, or_false] at hmo
    rcases hmo with h | h | h | h | h
    · subst h
      injection hop with hop
      subst hop
      simp at hp
    · subst h
      exact absurd hop (by simp)
    · subst h
      exact absurd hop (by simp)
    · subst h
      exact absurd hop (by simp)
    · subst h
      exact absurd hop (by simp)

/-- Witness for C6: a POST with no requestBody and no parameters gets
the empty-object body. -/
theorem claim_c6_witness :
    bodyMethod "POST" = true ∧
    (((none : Option (List (String × GoVal))) = none → ∃ fq,
       foldedQueryParams false 1000 [] [] [] = some fq ∧
       (⟨"POST", "h/x".toList, some [obr, cbr], []⟩ : RequestDescriptor).body =
         some (if fq.isEmpty then [obr, cbr] else goMarshal (GoVal.obj fq))) ∧
     (∀ rbf content, (none : Option (List (String × GoVal))) = some rbf →
       (lookupGo rbf "content").bind asObj = some content →
       ((∀ jc, lookupGo content "application/json" = some jc →
         ∃ jcm schema bd, asObj jc = some jcm ∧
           (lookupGo jcm "schema").bind asObj = some schema ∧
           getDummyValue schema none false 1000 "" [] = some bd ∧
           (⟨"POST", "h/x".toList, some [obr, cbr], []⟩ :
             RequestDescriptor).body = some (goMarshal bd)) ∧
        (lookupGo content "application/json" = none →
           (⟨"POST", "h/x".toList, some [obr, cbr], []⟩ :
             RequestDescriptor).body = none)))) :=
  ⟨rfl, claim_c6 "h".toList [] [] false "POST" "/x".toList [] none 1000
    rfl rfl⟩

/-- Witness for C10: a header parameter next to a query parameter. -/
theorem claim_c10_witness :
    ((⟨"h1", "header", false, [], some (.str "s")⟩ : Parameter).paramIn =
        "header" ∨
     (⟨"h1", "header", false, [], some (.str "s")⟩ : Parameter).paramIn =
        "cookie") ∧
    buildOneDescriptor "h".toList [] [] false "GET" "/x".toList
        [⟨"q", "query", false, [], some (.str "v")⟩] none 1000 =
      some ⟨"GET", "h/x?q=v".toList, none, []⟩ :=
  ⟨Or.inl rfl,
   claim_c10 "h".toList [] [] false "GET" "/x".toList []
     [⟨"q", "query", false, [], some (.str "v")⟩]
     ⟨"h1", "header", false, [], some (.str "s")⟩ none 1000 (Or.inl rfl) rfl⟩

/-- Witness for C3 on a one-operation document. -/
theorem claim_c3_witness :
    buildDescriptors ⟨[("/x".toList, ⟨some ⟨[], none⟩, none, none, none, none,
        []⟩)]⟩ "h".toList ["GET"] false [] [] =
      some [⟨"GET", "h/x".toList, none, []⟩] ∧
    countRequests ⟨[("/x".toList, ⟨some ⟨[], none⟩, none, none, none, none,
        []⟩)]⟩ ["GET"] false = some 1 :=
  ⟨rfl, claim_c3 (⟨[("/x".toList, ⟨some ⟨[], none⟩, none, none, none, none, []⟩)]⟩ : OpenAPI) "h".toList ["GET"] false [] [] rfl⟩
